import Mathlib

/-!
Verification of the dependency-scanner repository (`src/main.rs`).

Rust strings are modelled as `List Char`; `Option`/`Result` become
`Option`/`Except`.  Effectful code (the scan loop in `main`, the advisory
lookup with its rate-limit retry) is modelled by explicit state passing:
the scan loop folds over the action list threading the two accumulating
vectors, and the HTTP transport becomes a list of responses that the
lookup consumes, returning the result together with the total time slept
and the number of requests issued.
-/

/-- Abbreviation turning a Lean string literal into the `List Char` model
of a Rust string. -/
def str (s : String) : List Char := s.data

/-- Rust `str::split(sep)` for a `char` separator: splits into the
(possibly empty) segments between occurrences of `sep`; the result always
has one more element than the number of occurrences of `sep`. -/
def splitChar (sep : Char) : List Char → List (List Char)
  | [] => [[]]
  | c :: cs =>
    if c = sep then [] :: splitChar sep cs
    else
      match splitChar sep cs with
      | [] => [[c]]
      | p :: ps => (c :: p) :: ps

/-- Rust `str::contains(pat)` for a string pattern: `needle` occurs as a
contiguous substring of `hay`. -/
def occursIn (needle : List Char) : List Char → Bool
  | [] => needle.isEmpty
  | c :: t => needle.isPrefixOf (c :: t) || occursIn needle t

/-- Rust `str::parse::<u64>()`: an optional leading `+`, then one or more
ASCII digits, value below `2^64`. -/
def parse_u64 (s : List Char) : Option Nat :=
  let digits := match s with
    | '+' :: rest => rest
    | _ => s
  if digits.isEmpty then none
  else if digits.all Char.isDigit then
    let n := digits.foldl (fun acc c => acc * 10 + (c.toNat - '0'.toNat)) 0
    if n < 2 ^ 64 then some n else none
  else none

/-- `main.rs` `Config` (lines 21-25): both fields are `Option`al in the
YAML file. `critical_dependencies` is a `Vec<String>`, `trusted_owners` a
`HashSet<String>`; membership in either is exact string equality, so both
are modelled as lists with `List.contains`. -/
structure Config where
  critical_dependencies : Option (List (List Char))
  trusted_owners : Option (List (List Char))
deriving DecidableEq

/-- The default `Config` built by `load_config` when the file cannot be
read (lines 37-40): both fields present and empty. -/
def default_config : Config := ⟨some [], some []⟩

/-- `load_config` (lines 28-43).  The filesystem read is modelled by its
result `read : Except e (List Char)` and the external `serde_yaml`
deserializer by a function `parse`.  A read error is swallowed and the
default config returned; a parse error of successfully read content is
propagated via `?`. -/
def load_config (read : Except (List Char) (List Char))
    (parse : List Char → Except (List Char) Config) : Except (List Char) Config :=
  match read with
  | .ok content => parse content
  | .error _ => .ok default_config

/-- `main.rs` `Label` (lines 61-64). -/
structure Label where
  name : List Char
deriving DecidableEq

/-- `main.rs` `GitHubAdvisory` (lines 51-59). -/
structure GitHubAdvisory where
  id : List Char
  number : Int
  title : List Char
  state : List Char
  labels : List Label
  severity : Option (List Char)
deriving DecidableEq

/-- The 40-lowercase-hex test from `ActionRef::from_action_string`
(lines 93-95): the anchored regex `^[0-9a-f]{40}$` holds of a string iff
it has exactly 40 characters, each an ASCII digit or a lowercase `a`-`f`. -/
def is_commit_sha_chars (v : List Char) : Bool :=
  v.length == 40 && v.all (fun c => c.isDigit || ('a' ≤ c && c ≤ 'f'))

/-- `main.rs` `ActionRef` (lines 67-73). -/
structure ActionRef where
  owner : List Char
  repo : List Char
  version : List Char
  is_commit_sha : Bool
deriving DecidableEq

/-- `ActionRef::from_action_string` (lines 76-103): skip `docker://`
references, split on `@` requiring exactly two parts, split the first part
on `/` requiring exactly two parts, and record whether the version matches
the 40-lowercase-hex commit regex. -/
def ActionRef.from_action_string (action : List Char) : Option ActionRef :=
  if (str "docker://").isPrefixOf action then none
  else
    match splitChar '@' action with
    | [before, version] =>
      match splitChar '/' before with
      | [owner, repo] => some ⟨owner, repo, version, is_commit_sha_chars version⟩
      | _ => none
    | _ => none

/-- `is_trusted_owner` (lines 195-197): `map_or(false, contains)` on the
optional trusted-owners set; exact, case-sensitive membership. -/
def is_trusted_owner (owner : List Char) (config : Config) : Bool :=
  match config.trusted_owners with
  | some owners => owners.contains owner
  | none => false

/-- Whether `action` is listed in `config.critical_dependencies`
(`check_dependency_pinning` line 220): exact string membership,
`map_or(false, contains)`. -/
def isCriticalDep (action : List Char) (config : Config) : Bool :=
  match config.critical_dependencies with
  | some deps => deps.contains action
  | none => false

/-- The outcome of `check_dependency_pinning`, with one constructor per
`return` path of the Rust function (lines 219-254); the printed messages
distinguish the branches.  `WarnCriticalTag` is the printed warning of
lines 237-241, after which the function still returns `true`. -/
inductive PinningVerdict
  | Pass
  | FailUnpinnedCritical
  | FailUnstableCritical
  | WarnCriticalTag
  | FailUnpinnedStrict
  | FailUnstableStrict
deriving DecidableEq

/-- `check_dependency_pinning` (lines 219-254) with its branch recorded:
docker references pass unconditionally; a critical dependency fails when it
has no `@` or when the raw string CONTAINS `@main`, `@master` or `@latest`
as a substring, and is merely warned about when parsed but not a commit
SHA; in strict mode a non-critical dependency fails under the same no-`@`
and substring checks. -/
def evaluatePinning (action : List Char) (config : Config) (strict : Bool) :
    PinningVerdict :=
  let is_critical := isCriticalDep action config
  if (str "docker://").isPrefixOf action then .Pass
  else if is_critical then
    if !(action.contains '@') then .FailUnpinnedCritical
    else if occursIn (str "@main") action || occursIn (str "@master") action
        || occursIn (str "@latest") action then .FailUnstableCritical
    else
      match ActionRef.from_action_string action with
      | some ref => if !ref.is_commit_sha then .WarnCriticalTag else .Pass
      | none => .Pass
  else if strict then
    if !(action.contains '@') then .FailUnpinnedStrict
    else if occursIn (str "@main") action || occursIn (str "@master") action
        || occursIn (str "@latest") action then .FailUnstableStrict
    else .Pass
  else .Pass

/-- The boolean returned by `check_dependency_pinning`: `false` exactly on
the four `return false` paths. -/
def check_dependency_pinning (action : List Char) (config : Config)
    (strict : Bool) : Bool :=
  match evaluatePinning action config strict with
  | .FailUnpinnedCritical | .FailUnstableCritical
  | .FailUnpinnedStrict | .FailUnstableStrict => false
  | _ => true

/-- The trust verdict of the inline check in `main` (lines 135-145):
trusted owners pass; an untrusted owner pinned to a commit SHA is only
warned about; an untrusted owner not pinned to a commit SHA is a failure. -/
inductive TrustVerdict
  | Trusted
  | UntrustedButImmutable
  | UntrustedAndMutable
deriving DecidableEq

/-- The trust classification applied by `main` (lines 135-145) to a parsed
reference. -/
def evaluateTrust (ref : ActionRef) (config : Config) : TrustVerdict :=
  if is_trusted_owner ref.owner config then .Trusted
  else if ref.is_commit_sha then .UntrustedButImmutable
  else .UntrustedAndMutable

/-- One iteration of the scan loop in `main` (lines 127-167), threading the
two accumulating vectors `(vulnerable_actions, insecure_pinning)`.
The advisory lookup is abstracted by `lookup`, returning what
`get_github_advisories` would for the parsed reference. -/
def scanAction (config : Config) (strict : Bool)
    (lookup : ActionRef → Except (List Char) (List GitHubAdvisory))
    (st : List (List Char) × List (List Char)) (action : List Char) :
    List (List Char) × List (List Char) :=
  let vulnerable := st.1
  let insecure := st.2
  let insecure :=
    if !check_dependency_pinning action config strict then insecure ++ [action]
    else insecure
  match ActionRef.from_action_string action with
  | some ref =>
    let insecure :=
      if !is_trusted_owner ref.owner config && !ref.is_commit_sha then
        insecure ++ [action]
      else insecure
    let vulnerable :=
      match lookup ref with
      | .ok advisories =>
        if !advisories.isEmpty then vulnerable ++ [action] else vulnerable
      | .error _ => vulnerable
    (vulnerable, insecure)
  | none => (vulnerable, insecure)

/-- The scan loop of `main` over the extracted action strings, starting
from the two empty vectors of lines 122-123. -/
def runScan (actions : List (List Char)) (config : Config) (strict : Bool)
    (lookup : ActionRef → Except (List Char) (List GitHubAdvisory)) :
    List (List Char) × List (List Char) :=
  actions.foldl (scanAction config strict lookup) ([], [])

/-- The final report of `main` (lines 170-191): exit code 1 when either
vector is non-empty, else fall through to `Ok(())`, exit code 0. -/
def scan_exit_code (r : List (List Char) × List (List Char)) : Nat :=
  if !r.1.isEmpty || !r.2.isEmpty then 1 else 0

/-- One HTTP response of the advisory endpoint, as `get_github_advisories`
discriminates them (lines 269-297): a 200 whose body decodes to a list of
advisories, a 200 whose body fails to decode, a 429 carrying an optional
`Retry-After` header value, or any other status. -/
inductive HttpResponse
  | ok (items : List GitHubAdvisory)
  | okUndecodable (msg : List Char)
  | rateLimited (retryAfter : Option (List Char))
  | otherStatus (code : Nat)
deriving DecidableEq

/-- The `Retry-After` handling of lines 278-283: take the header value if
present, parse it as `u64`, default to 60 when absent or unparsable. -/
def retry_after_or_default (h : Option (List Char)) : Nat :=
  match h.bind parse_u64 with
  | some n => n
  | none => 60

/-- `get_github_advisories` (lines 257-298) against a transport modelled as
the list of successive responses the endpoint returns.  Yields the
function's result together with the total seconds slept and the number of
requests issued; `none` when the response list is exhausted (the Rust
recursion would still be awaiting a response). -/
def get_github_advisories :
    List HttpResponse → Option (Except (List Char) (List GitHubAdvisory) × Nat × Nat)
  | [] => none
  | r :: rest =>
    match r with
    | .ok items => some (.ok items, 0, 1)
    | .okUndecodable msg => some (.error msg, 0, 1)
    | .rateLimited h =>
      match get_github_advisories rest with
      | none => none
      | some (res, wait, count) =>
        some (res, retry_after_or_default h + wait, count + 1)
    | .otherStatus code =>
      some (.error (str "Unexpected HTTP status: " ++ (Nat.repr code).data), 0, 1)

/-! ## Helper lemmas about the string model -/

theorem splitChar_ne_nil (sep : Char) (l : List Char) : splitChar sep l ≠ [] := by
  induction l with
  | nil => simp [splitChar]
  | cons c cs ih =>
    simp only [splitChar]
    split
    · simp
    · cases h : splitChar sep cs with
      | nil => simp
      | cons p ps => simp

theorem not_mem_of_mem_splitChar {sep : Char} {l p : List Char}
    (hp : p ∈ splitChar sep l) : sep ∉ p := by
  induction l generalizing p with
  | nil =>
    simp [splitChar] at hp
    subst hp
    simp
  | cons c cs ih =>
    simp only [splitChar] at hp
    split at hp
    · rcases List.mem_cons.mp hp with h | h
      · subst h; simp
      · exact ih h
    · rename_i hc
      cases hsp : splitChar sep cs with
      | nil => exact absurd hsp (splitChar_ne_nil sep cs)
      | cons q qs =>
        rw [hsp] at hp
        rcases List.mem_cons.mp hp with h | h
        · subst h
          intro hmem
          rcases List.mem_cons.mp hmem with h1 | h1
          · exact hc h1.symm
          · have hq : q ∈ splitChar sep cs := by
              rw [hsp]; exact List.mem_cons_self _ _
            exact ih hq h1
        · have hpmem : p ∈ splitChar sep cs := by
            rw [hsp]; exact List.mem_cons.mpr (Or.inr h)
          exact ih hpmem

theorem splitChar_length (sep : Char) (l : List Char) :
    (splitChar sep l).length = l.count sep + 1 := by
  induction l with
  | nil => simp [splitChar]
  | cons c cs ih =>
    simp only [splitChar]
    split
    · rename_i h
      simp [List.count_cons, ih, h]
    · rename_i h
      cases hsp : splitChar sep cs with
      | nil => exact absurd hsp (splitChar_ne_nil sep cs)
      | cons q qs =>
        rw [hsp] at ih
        simp only [hsp]
        simp [List.count_cons, ← ih, h, Ne.symm h]

theorem splitChar_of_not_mem {sep : Char} {l : List Char} (h : sep ∉ l) :
    splitChar sep l = [l] := by
  induction l with
  | nil => simp [splitChar]
  | cons c cs ih =>
    have hc : ¬ c = sep := by rintro rfl; exact h (List.mem_cons_self _ _)
    simp only [splitChar, if_neg hc]
    rw [ih (fun hm => h (List.mem_cons_of_mem c hm))]

theorem splitChar_append {sep : Char} {a : List Char} (b : List Char)
    (h : sep ∉ a) : splitChar sep (a ++ sep :: b) = a :: splitChar sep b := by
  induction a with
  | nil => simp [splitChar]
  | cons c cs ih =>
    have hc : ¬ c = sep := by rintro rfl; exact h (List.mem_cons_self _ _)
    simp only [List.cons_append, splitChar, if_neg hc, List.append_eq]
    rw [ih (fun hm => h (List.mem_cons_of_mem c hm))]

theorem occursIn_iff {needle hay : List Char} :
    occursIn needle hay = true ↔ ∃ p q, hay = p ++ needle ++ q := by
  induction hay with
  | nil =>
    simp only [occursIn, List.isEmpty_iff]
    constructor
    · rintro rfl; exact ⟨[], [], rfl⟩
    · rintro ⟨p, q, hpq⟩
      have h0 := List.append_eq_nil.mp hpq.symm
      exact (List.append_eq_nil.mp h0.1).2
  | cons c t ih =>
    simp only [occursIn, Bool.or_eq_true, List.isPrefixOf_iff_prefix, ih]
    constructor
    · rintro (⟨q, hq⟩ | ⟨p, q, rfl⟩)
      · exact ⟨[], q, by simpa using hq.symm⟩
      · exact ⟨c :: p, q, by simp⟩
    · rintro ⟨p, q, hpq⟩
      cases p with
      | nil => exact Or.inl ⟨q, by simpa using hpq.symm⟩
      | cons c' p' =>
        simp only [List.cons_append, List.cons.injEq] at hpq
        exact Or.inr ⟨p', q, hpq.2⟩

/-! ## Helper lemmas about the scan loop -/

/-- A `docker://` reference leaves the scan state unchanged: the pinning
check returns `true` and parsing returns `none`, so neither vector grows. -/
theorem scanAction_docker {a : List Char}
    (hd : (str "docker://").isPrefixOf a = true) (config : Config)
    (strict : Bool)
    (lookup : ActionRef → Except (List Char) (List GitHubAdvisory))
    (st : List (List Char) × List (List Char)) :
    scanAction config strict lookup st a = st := by
  simp [scanAction, check_dependency_pinning, evaluatePinning,
    ActionRef.from_action_string, hd]

/-- Scan step on a reference that fails to parse: only the pinning check
can push. -/
theorem scanAction_none {a : List Char} (config : Config) (strict : Bool)
    (lookup : ActionRef → Except (List Char) (List GitHubAdvisory))
    (st : List (List Char) × List (List Char))
    (hp : ActionRef.from_action_string a = none) :
    scanAction config strict lookup st a =
      (st.1,
       st.2 ++ (if check_dependency_pinning a config strict then [] else [a])) := by
  simp only [scanAction, hp]
  by_cases h1 : check_dependency_pinning a config strict <;> simp [h1]

/-- Scan step on a reference that parses: the pinning check and the trust
check push onto `insecure_pinning` in that order, and the advisory lookup
pushes onto `vulnerable_actions`. -/
theorem scanAction_some {a : List Char} (config : Config) (strict : Bool)
    (lookup : ActionRef → Except (List Char) (List GitHubAdvisory))
    (st : List (List Char) × List (List Char)) (ref : ActionRef)
    (hp : ActionRef.from_action_string a = some ref) :
    scanAction config strict lookup st a =
      (st.1 ++ (match lookup ref with
        | .ok advisories => if advisories.isEmpty then [] else [a]
        | .error _ => []),
       st.2 ++ (if check_dependency_pinning a config strict then [] else [a])
            ++ (if is_trusted_owner ref.owner config = false ∧
                  ref.is_commit_sha = false then [a] else [])) := by
  simp only [scanAction, hp]
  cases hl : lookup ref with
  | ok advisories =>
    by_cases h1 : check_dependency_pinning a config strict <;>
      by_cases h2 : is_trusted_owner ref.owner config <;>
        by_cases h3 : ref.is_commit_sha <;>
          by_cases h4 : advisories.isEmpty <;>
            simp [h1, h2, h3, h4]
  | error e =>
    by_cases h1 : check_dependency_pinning a config strict <;>
      by_cases h2 : is_trusted_owner ref.owner config <;>
        by_cases h3 : ref.is_commit_sha <;>
          simp [h1, h2, h3]

/-- Anything in the `vulnerable_actions` vector after one scan step was
there before or is the action just processed. -/
theorem mem_scanAction_fst {config : Config} {strict : Bool}
    {lookup : ActionRef → Except (List Char) (List GitHubAdvisory)}
    {st : List (List Char) × List (List Char)} {a x : List Char}
    (h : x ∈ (scanAction config strict lookup st a).1) : x ∈ st.1 ∨ x = a := by
  cases hp : ActionRef.from_action_string a with
  | none =>
    rw [scanAction_none config strict lookup st hp] at h
    exact Or.inl h
  | some ref =>
    rw [scanAction_some config strict lookup st ref hp] at h
    rcases List.mem_append.mp h with h1 | h1
    · exact Or.inl h1
    · cases hl : lookup ref <;> rw [hl] at h1
      · split at h1 <;> simp_all
      · simp_all

/-- Anything in the `insecure_pinning` vector after one scan step was
there before or is the action just processed. -/
theorem mem_scanAction_snd {config : Config} {strict : Bool}
    {lookup : ActionRef → Except (List Char) (List GitHubAdvisory)}
    {st : List (List Char) × List (List Char)} {a x : List Char}
    (h : x ∈ (scanAction config strict lookup st a).2) : x ∈ st.2 ∨ x = a := by
  cases hp : ActionRef.from_action_string a with
  | none =>
    rw [scanAction_none config strict lookup st hp] at h
    rcases List.mem_append.mp h with h1 | h1
    · exact Or.inl h1
    · split at h1 <;> simp_all
  | some ref =>
    rw [scanAction_some config strict lookup st ref hp] at h
    rcases List.mem_append.mp h with h1 | h1
    · rcases List.mem_append.mp h1 with h2 | h2
      · exact Or.inl h2
      · split at h2 <;> simp_all
    · split at h1 <;> simp_all

/-! ## Helper lemmas about the parser -/

theorem from_action_string_eq_none_of_split {s : List Char}
    (h : (splitChar '@' s).length ≠ 2) :
    ActionRef.from_action_string s = none := by
  unfold ActionRef.from_action_string
  split
  · rfl
  · cases hsp : splitChar '@' s with
    | nil => rfl
    | cons x xs =>
      cases xs with
      | nil => rfl
      | cons y ys =>
        cases ys with
        | nil => exact absurd (by rw [hsp]; rfl) h
        | cons z zs => rfl

theorem from_action_string_of_split {s : List Char}
    (hd : (str "docker://").isPrefixOf s = false)
    {a b : List Char} (hsp : splitChar '@' s = [a, b]) :
    ActionRef.from_action_string s =
      (match splitChar '/' a with
       | [owner, repo] => some ⟨owner, repo, b, is_commit_sha_chars b⟩
       | _ => none) := by
  unfold ActionRef.from_action_string
  simp only [hd, Bool.false_eq_true, if_false, hsp]

/-- Inversion: a successful parse exposes the two splits it came from. -/
theorem from_action_string_some_inv {s : List Char} {ref : ActionRef}
    (h : ActionRef.from_action_string s = some ref) :
    ∃ before, splitChar '@' s = [before, ref.version] ∧
      splitChar '/' before = [ref.owner, ref.repo] ∧
      ref.is_commit_sha = is_commit_sha_chars ref.version := by
  by_cases hd : (str "docker://").isPrefixOf s = true
  · rw [ActionRef.from_action_string, if_pos hd] at h; cases h
  · have hd' : (str "docker://").isPrefixOf s = false := Bool.eq_false_iff.mpr hd
    cases hsp : splitChar '@' s with
    | nil => exact absurd hsp (splitChar_ne_nil _ _)
    | cons before tail =>
      cases tail with
      | nil =>
        rw [from_action_string_eq_none_of_split (by rw [hsp]; simp)] at h
        cases h
      | cons version tail2 =>
        cases tail2 with
        | cons z zs =>
          rw [from_action_string_eq_none_of_split (by rw [hsp]; simp)] at h
          cases h
        | nil =>
          rw [from_action_string_of_split hd' hsp] at h
          cases hsp2 : splitChar '/' before with
          | nil => exact absurd hsp2 (splitChar_ne_nil _ _)
          | cons o t2 =>
            cases t2 with
            | nil => rw [hsp2] at h; simp at h
            | cons r t3 =>
              cases t3 with
              | cons w ws => rw [hsp2] at h; simp at h
              | nil =>
                rw [hsp2] at h
                simp only [Option.some.injEq] at h
                subst h
                exact ⟨before, rfl, hsp2, rfl⟩

/-! ## Claim theorems -/

/-- C3 (confirmed): on a rate-limit response `get_github_advisories` reads
the server-supplied wait (60 when the `Retry-After` header is absent or
unparsable), sleeps that long, and retries the same lookup recursively
with no retry ceiling: `n` consecutive header-less rate limits followed by
a success cost `60 * n` seconds of sleep and `n + 1` requests, and a
rate limit carrying `Retry-After: 2` followed by a success sleeps exactly
2 seconds and issues exactly one more request. -/
theorem c3_rate_limit_retry :
    (∀ (h : Option (List Char)) (rest : List HttpResponse),
        get_github_advisories (HttpResponse.rateLimited h :: rest) =
          (get_github_advisories rest).map
            (fun r => (r.1, retry_after_or_default h + r.2.1, r.2.2 + 1)))
    ∧ retry_after_or_default none = 60
    ∧ retry_after_or_default (some (str "not-a-number")) = 60
    ∧ retry_after_or_default (some (str "2")) = 2
    ∧ (∀ (n : Nat) (items : List GitHubAdvisory),
        get_github_advisories
            (List.replicate n (HttpResponse.rateLimited none) ++
              [HttpResponse.ok items]) =
          some (.ok items, 60 * n, n + 1))
    ∧ (∀ (items : List GitHubAdvisory),
        get_github_advisories
            [HttpResponse.rateLimited (some (str "2")), HttpResponse.ok items] =
          some (.ok items, 2, 2)) := by
  refine ⟨?_, rfl, by decide, by decide, ?_, ?_⟩
  · intro h rest
    cases hr : get_github_advisories rest with
    | none => simp [get_github_advisories, hr]
    | some r =>
      obtain ⟨res, wait, count⟩ := r
      simp [get_github_advisories, hr]
  · intro n items
    induction n with
    | zero => simp [get_github_advisories]
    | succ k ih =>
      rw [List.replicate_succ, List.cons_append]
      simp only [get_github_advisories, ih, retry_after_or_default,
        Option.none_bind]
      simp only [Option.some.injEq, Prod.mk.injEq, true_and]
      constructor
      · ring
      · trivial
  · intro items
    simp [get_github_advisories, retry_after_or_default, parse_u64]
    decide

/-- C4 (corrected): `load_config` recovers a read failure (file absent or
unreadable) by returning the default config with both sets empty, but a
configuration that is read successfully and then fails YAML parsing is
propagated via `?` — not every load failure is recovered. -/
theorem c4_amended_read_failure_defaults :
    ∀ (e : List Char) (parse : List Char → Except (List Char) Config),
      load_config (.error e) parse = .ok default_config ∧
      default_config.critical_dependencies = some [] ∧
      default_config.trusted_owners = some [] :=
  fun _ _ => ⟨rfl, rfl, rfl⟩

/-- C4 counterexample: a readable configuration whose content fails to
parse makes `load_config` return the parse error instead of recovering
with empty defaults, refuting \"every policy-configuration load failure
... is never propagated\". -/
theorem c4_counterexample :
    load_config (.ok (str "critical_dependencies: [unclosed"))
      (fun _ => .error (str "invalid yaml")) =
      .error (str "invalid yaml") := rfl

/-- C8 (confirmed): the scan fails with exit code 1 iff
`vulnerable_actions` or `insecure_pinning` is non-empty after the loop,
and exits 0 when both are empty. -/
theorem c8_exit_code_iff :
    ∀ (actions : List (List Char)) (config : Config) (strict : Bool)
      (lookup : ActionRef → Except (List Char) (List GitHubAdvisory)),
      (scan_exit_code (runScan actions config strict lookup) = 1 ↔
        (runScan actions config strict lookup).1 ≠ [] ∨
        (runScan actions config strict lookup).2 ≠ []) ∧
      (scan_exit_code (runScan actions config strict lookup) = 0 ↔
        (runScan actions config strict lookup).1 = [] ∧
        (runScan actions config strict lookup).2 = []) := by
  intro actions config strict lookup
  constructor <;>
    · unfold scan_exit_code
      rcases h1 : (runScan actions config strict lookup).1 with _ | ⟨x, xs⟩ <;>
        rcases h2 : (runScan actions config strict lookup).2 with _ | ⟨y, ys⟩ <;>
          simp [h1, h2]

/-- The character class `[0-9a-f]` of the commit regex, as a proposition. -/
theorem hex_char_iff (c : Char) :
    (c.isDigit || ('a' ≤ c && c ≤ 'f')) = true ↔
      (('0' ≤ c ∧ c ≤ '9') ∨ ('a' ≤ c ∧ c ≤ 'f')) := by
  have h0 : '0'.val = 48 := rfl
  have h9 : '9'.val = 57 := rfl
  simp only [Char.isDigit, Bool.or_eq_true, Bool.and_eq_true, decide_eq_true_iff,
    ge_iff_le, Char.le_def, h0, h9]

/-- C5 (corrected): a parsed `ActionRef` never has a `/` inside its owner
or repo segment (Rust `split('/')` segments cannot contain the separator),
but — contrary to the claim — the segments can be empty. -/
theorem c5_amended_no_slash :
    ∀ (s : List Char) (ref : ActionRef),
      ActionRef.from_action_string s = some ref →
      '/' ∉ ref.owner ∧ '/' ∉ ref.repo := by
  intro s ref h
  obtain ⟨before, hsp, hsp2, _⟩ := from_action_string_some_inv h
  constructor
  · exact not_mem_of_mem_splitChar (p := ref.owner)
      (by rw [hsp2]; exact List.mem_cons_self _ _)
  · exact not_mem_of_mem_splitChar (p := ref.repo) (by rw [hsp2]; simp)

/-- C5 counterexample: `"a/@v1"` parses successfully to a reference whose
repo segment is EMPTY, refuting the claimed non-emptiness of owner/repo. -/
theorem c5_counterexample :
    ActionRef.from_action_string (str "a/@v1") =
      some ⟨str "a", [], str "v1", false⟩ := by decide

/-- Witness for `c5_amended_no_slash` at `actions/checkout@v4`. -/
theorem c5_witness :
    '/' ∉ str "actions" ∧ '/' ∉ str "checkout" :=
  c5_amended_no_slash (str "actions/checkout@v4")
    ⟨str "actions", str "checkout", str "v4", false⟩ (by decide)

/-- C6 (confirmed): for every successfully parsed reference,
`is_commit_sha` holds iff the version has exactly 40 characters, each a
digit or a lowercase `a`-`f` — the anchored regex `^[0-9a-f]{40}$`;
in particular a 40-character uppercase-hex version is not immutable while
its lowercase counterpart is. -/
theorem c6_immutable_pin_iff :
    (∀ (s : List Char) (ref : ActionRef),
      ActionRef.from_action_string s = some ref →
      (ref.is_commit_sha = true ↔
        ref.version.length = 40 ∧
          ∀ c ∈ ref.version, ('0' ≤ c ∧ c ≤ '9') ∨ ('a' ≤ c ∧ c ≤ 'f')))
    ∧ (ActionRef.from_action_string
        (str "o/r@aaaaaaaaaaaaaaaaaaaaaaaaaaaaaa0123456789")).map
          ActionRef.is_commit_sha = some true
    ∧ (ActionRef.from_action_string
        (str "o/r@AAAAAAAAAAAAAAAAAAAAAAAAAAAAAA0123456789")).map
          ActionRef.is_commit_sha = some false := by
  refine ⟨?_, by decide, by decide⟩
  intro s ref h
  obtain ⟨before, hsp, hsp2, hsha⟩ := from_action_string_some_inv h
  rw [hsha]
  unfold is_commit_sha_chars
  rw [Bool.and_eq_true, beq_iff_eq, List.all_eq_true]
  constructor
  · rintro ⟨h1, h2⟩
    exact ⟨h1, fun c hc => (hex_char_iff c).mp (h2 c hc)⟩
  · rintro ⟨h1, h2⟩
    exact ⟨h1, fun c hc => (hex_char_iff c).mpr (h2 c hc)⟩

/-- Witness for `c6_immutable_pin_iff` at `a/b@v4`. -/
theorem c6_witness :
    ((⟨str "a", str "b", str "v4", false⟩ : ActionRef).is_commit_sha = true ↔
      (str "v4").length = 40 ∧
        ∀ c ∈ str "v4", ('0' ≤ c ∧ c ≤ '9') ∨ ('a' ≤ c ∧ c ≤ 'f')) :=
  c6_immutable_pin_iff.1 (str "a/b@v4")
    ⟨str "a", str "b", str "v4", false⟩ (by decide)

/-- C9 (confirmed): parsing returns `none` when the raw string does not
contain exactly one `@` or when the segment before `@` does not contain
exactly one `/`; for every other non-`docker://` string the owner, repo
and version of the result are the verbatim split segments, with no
normalization. -/
theorem c9_parse_verbatim :
    (∀ s : List Char, s.count '@' ≠ 1 → ActionRef.from_action_string s = none)
    ∧ (∀ a b : List Char, '@' ∉ a → '@' ∉ b → a.count '/' ≠ 1 →
        ActionRef.from_action_string (a ++ '@' :: b) = none)
    ∧ (∀ owner repo version : List Char,
        (str "docker://").isPrefixOf ((owner ++ '/' :: repo) ++ '@' :: version)
          = false →
        '@' ∉ owner → '@' ∉ repo → '@' ∉ version →
        '/' ∉ owner → '/' ∉ repo →
        ActionRef.from_action_string ((owner ++ '/' :: repo) ++ '@' :: version) =
          some ⟨owner, repo, version, is_commit_sha_chars version⟩) := by
  refine ⟨?_, ?_, ?_⟩
  · intro s hc
    apply from_action_string_eq_none_of_split
    rw [splitChar_length]
    omega
  · intro a b ha hb hc
    by_cases hd : (str "docker://").isPrefixOf (a ++ '@' :: b) = true
    · rw [ActionRef.from_action_string, if_pos hd]
    · have hsp : splitChar '@' (a ++ '@' :: b) = [a, b] := by
        rw [splitChar_append b ha, splitChar_of_not_mem hb]
      rw [from_action_string_of_split (Bool.eq_false_iff.mpr hd) hsp]
      have hl := splitChar_length '/' a
      cases hsp2 : splitChar '/' a with
      | nil => rfl
      | cons x xs =>
        cases xs with
        | nil => rfl
        | cons y ys =>
          cases ys with
          | nil =>
            exfalso
            rw [hsp2] at hl
            simp at hl
            omega
          | cons z zs => rfl
  · intro owner repo version hd ho1 hr1 hv1 ho2 hr2
    have hmem : '@' ∉ owner ++ '/' :: repo := by
      intro hm
      rcases List.mem_append.mp hm with h | h
      · exact ho1 h
      · rcases List.mem_cons.mp h with h2 | h2
        · exact absurd h2 (by decide)
        · exact hr1 h2
    have hsp : splitChar '@' ((owner ++ '/' :: repo) ++ '@' :: version) =
        [owner ++ '/' :: repo, version] := by
      rw [splitChar_append version hmem, splitChar_of_not_mem hv1]
    rw [from_action_string_of_split hd hsp]
    have hsp2 : splitChar '/' (owner ++ '/' :: repo) = [owner, repo] := by
      rw [splitChar_append repo ho2, splitChar_of_not_mem hr2]
    rw [hsp2]

/-- Witness for `c9_parse_verbatim` on concrete inputs: a string with no
`@`, a string with one `@` but no `/` before it, and a fully well-formed
reference. -/
theorem c9_witness :
    ActionRef.from_action_string (str "no-at-sign") = none ∧
    ActionRef.from_action_string ((str "a-b") ++ '@' :: (str "v1")) = none ∧
    ActionRef.from_action_string
        (((str "own") ++ '/' :: (str "rep")) ++ '@' :: (str "v4")) =
      some ⟨str "own", str "rep", str "v4", is_commit_sha_chars (str "v4")⟩ :=
  ⟨c9_parse_verbatim.1 (str "no-at-sign") (by decide),
   c9_parse_verbatim.2.1 (str "a-b") (str "v1") (by decide) (by decide)
     (by decide),
   c9_parse_verbatim.2.2 (str "own") (str "rep") (str "v4") (by decide)
     (by decide) (by decide) (by decide) (by decide) (by decide)⟩

/-- C2 counterexample: `a/b@mainline`, listed as critical, parses with
version `mainline` — not `main`, `master` or `latest` — yet
`check_dependency_pinning` flags it as an unstable reference, because the
code matches `@main` as a SUBSTRING, not as an `@`-suffix alias. -/
theorem c2_counterexample :
    evaluatePinning (str "a/b@mainline")
        ⟨some [str "a/b@mainline"], some []⟩ false = .FailUnstableCritical
    ∧ ActionRef.from_action_string (str "a/b@mainline") =
        some ⟨str "a", str "b", str "mainline", false⟩
    ∧ str "mainline" ≠ str "main"
    ∧ str "mainline" ≠ str "master"
    ∧ str "mainline" ≠ str "latest" := by decide

/-- C2 (corrected): for a critical dependency containing `@` (and likewise
for a non-critical one in strict mode), the unstable-reference failure
fires iff the RAW STRING contains `@main`, `@master` or `@latest` as a
substring anywhere — not only as an exact `@`-suffix version alias. -/
theorem c2_amended_substring_match :
    ∀ (action : List Char) (config : Config) (strict : Bool),
      (str "docker://").isPrefixOf action = false →
      action.contains '@' = true →
      ((isCriticalDep action config = true →
        (evaluatePinning action config strict = .FailUnstableCritical ↔
          (∃ p q, action = p ++ str "@main" ++ q) ∨
          (∃ p q, action = p ++ str "@master" ++ q) ∨
          (∃ p q, action = p ++ str "@latest" ++ q)))
      ∧ (isCriticalDep action config = false → strict = true →
        (evaluatePinning action config strict = .FailUnstableStrict ↔
          (∃ p q, action = p ++ str "@main" ++ q) ∨
          (∃ p q, action = p ++ str "@master" ++ q) ∨
          (∃ p q, action = p ++ str "@latest" ++ q)))) := by
  intro action config strict hd h1
  have h1' : '@' ∈ action := List.elem_iff.mp h1
  have hiff : (occursIn (str "@main") action || occursIn (str "@master") action
      || occursIn (str "@latest") action) = true ↔
      ((∃ p q, action = p ++ str "@main" ++ q) ∨
       (∃ p q, action = p ++ str "@master" ++ q) ∨
       (∃ p q, action = p ++ str "@latest" ++ q)) := by
    simp only [Bool.or_eq_true, occursIn_iff, or_assoc]
  constructor
  · intro hcrit
    by_cases hocc : (occursIn (str "@main") action
        || occursIn (str "@master") action
        || occursIn (str "@latest") action) = true
    · constructor
      · intro _; exact hiff.mp hocc
      · intro _
        unfold evaluatePinning
        simp [hcrit, hd, h1, h1', hocc]
    · have hocc' := Bool.eq_false_iff.mpr hocc
      constructor
      · intro heq
        exfalso
        unfold evaluatePinning at heq
        simp only [hcrit, hd, h1, hocc', Bool.false_eq_true, if_false,
          Bool.not_true, if_true] at heq
        cases hp : ActionRef.from_action_string action with
        | some ref =>
          rw [hp] at heq
          by_cases hs : ref.is_commit_sha <;> simp [hs] at heq
        | none => rw [hp] at heq; simp at heq
      · intro hex; exact absurd (hiff.mpr hex) hocc
  · intro hcrit hstrict
    by_cases hocc : (occursIn (str "@main") action
        || occursIn (str "@master") action
        || occursIn (str "@latest") action) = true
    · constructor
      · intro _; exact hiff.mp hocc
      · intro _
        unfold evaluatePinning
        simp [hcrit, hd, h1, h1', hocc, hstrict]
    · have hocc' := Bool.eq_false_iff.mpr hocc
      constructor
      · intro heq
        exfalso
        unfold evaluatePinning at heq
        simp [hcrit, hd, h1, h1', hocc', hstrict] at heq
      · intro hex; exact absurd (hiff.mpr hex) hocc

/-- Witness for `c2_amended_substring_match`: a critical `a/b@main` is an
unstable-reference failure iff one of the three substrings occurs. -/
theorem c2_witness :
    evaluatePinning (str "a/b@main") ⟨some [str "a/b@main"], some []⟩ false =
        .FailUnstableCritical ↔
      (∃ p q, str "a/b@main" = p ++ str "@main" ++ q) ∨
      (∃ p q, str "a/b@main" = p ++ str "@master" ++ q) ∨
      (∃ p q, str "a/b@main" = p ++ str "@latest" ++ q) :=
  (c2_amended_substring_match (str "a/b@main") ⟨some [str "a/b@main"], some []⟩
    false (by decide) (by decide)).1 (by decide)

/-- C7 (confirmed): the trust verdict is `Trusted` iff the owner is in the
configured trusted set (exact, case-sensitive list membership); for an
untrusted owner the verdict is `UntrustedAndMutable` iff the pin is not a
commit SHA; and in the scan loop exactly the `UntrustedAndMutable` case
pushes the raw string onto `insecure_pinning` — `UntrustedButImmutable`
(and `Trusted`) never do. -/
theorem c7_trust_verdict :
    (∀ (ref : ActionRef) (config : Config),
      (evaluateTrust ref config = .Trusted ↔
        ∃ owners, config.trusted_owners = some owners ∧ ref.owner ∈ owners))
    ∧ (∀ (ref : ActionRef) (config : Config),
        is_trusted_owner ref.owner config = false →
        (evaluateTrust ref config = .UntrustedAndMutable ↔
          ref.is_commit_sha = false))
    ∧ (∀ (action : List Char) (config : Config) (strict : Bool)
        (lookup : ActionRef → Except (List Char) (List GitHubAdvisory))
        (ref : ActionRef),
        ActionRef.from_action_string action = some ref →
        check_dependency_pinning action config strict = true →
        evaluateTrust ref config = .UntrustedAndMutable →
        (runScan [action] config strict lookup).2 = [action])
    ∧ (∀ (action : List Char) (config : Config) (strict : Bool)
        (lookup : ActionRef → Except (List Char) (List GitHubAdvisory))
        (ref : ActionRef),
        ActionRef.from_action_string action = some ref →
        check_dependency_pinning action config strict = true →
        evaluateTrust ref config ≠ .UntrustedAndMutable →
        (runScan [action] config strict lookup).2 = []) := by
  refine ⟨?_, ?_, ?_, ?_⟩
  · intro ref config
    unfold evaluateTrust
    by_cases ht : is_trusted_owner ref.owner config = true
    · simp only [ht, if_true]
      constructor
      · intro _
        unfold is_trusted_owner at ht
        cases ho : config.trusted_owners with
        | none => rw [ho] at ht; cases ht
        | some owners =>
          rw [ho] at ht
          exact ⟨owners, rfl, List.elem_iff.mp ht⟩
      · intro _; trivial
    · have ht' := Bool.eq_false_iff.mpr ht
      simp only [ht', Bool.false_eq_true, if_false]
      constructor
      · intro h
        split at h <;> cases h
      · rintro ⟨owners, ho, hmem⟩
        exfalso
        apply ht
        unfold is_trusted_owner
        rw [ho]
        exact List.elem_iff.mpr hmem
  · intro ref config ht
    unfold evaluateTrust
    rw [ht]
    by_cases hs : ref.is_commit_sha <;> simp [hs]
  · intro action config strict lookup ref hp hpin htrust
    have hcond : is_trusted_owner ref.owner config = false ∧
        ref.is_commit_sha = false := by
      unfold evaluateTrust at htrust
      by_cases ht : is_trusted_owner ref.owner config <;>
        by_cases hs : ref.is_commit_sha <;> simp_all
    unfold runScan
    simp only [List.foldl]
    rw [scanAction_some config strict lookup ([], []) ref hp]
    simp [hpin, hcond.1, hcond.2]
  · intro action config strict lookup ref hp hpin htrust
    have hcond : ¬(is_trusted_owner ref.owner config = false ∧
        ref.is_commit_sha = false) := by
      rintro ⟨ht, hs⟩
      apply htrust
      unfold evaluateTrust
      simp [ht, hs]
    unfold runScan
    simp only [List.foldl]
    rw [scanAction_some config strict lookup ([], []) ref hp]
    simp [hpin, hcond]

/-- Witness for `c7_trust_verdict`: with an empty trusted-owner set,
`a/b@v1` (untrusted, mutable pin) lands in `insecure_pinning`. -/
theorem c7_witness :
    (runScan [str "a/b@v1"] ⟨some [], some []⟩ false
      (fun _ => Except.ok [])).2 = [str "a/b@v1"] :=
  c7_trust_verdict.2.2.1 (str "a/b@v1") ⟨some [], some []⟩ false
    (fun _ => Except.ok []) ⟨str "a", str "b", str "v1", false⟩
    (by decide) (by decide) (by decide)

/-- C1 counterexample: `insecure_pinning` is a `Vec`, not a set.  With
`e/r@main` listed as a critical dependency and no trusted owners, the
pinning check fails (substring `@main`) AND the trust check fails
(untrusted owner, mutable pin), and the reference is pushed TWICE: the
final report lists it twice, refuting the claimed set semantics. -/
theorem c1_counterexample :
    (runScan [str "e/r@main"] ⟨some [str "e/r@main"], some []⟩ false
        (fun _ => Except.ok [])).2 = [str "e/r@main", str "e/r@main"] ∧
    ((runScan [str "e/r@main"] ⟨some [str "e/r@main"], some []⟩ false
        (fun _ => Except.ok [])).2).count (str "e/r@main") = 2 := by decide

/-- C1 (corrected): whenever the pinning check fails AND the trust check
yields `UntrustedAndMutable` on the same raw reference, the second
insertion is NOT a no-op: the reference appears exactly twice in
`insecure_pinning` (an append-only vector), so the report duplicates it. -/
theorem c1_amended_duplicate_push :
    ∀ (action : List Char) (config : Config) (strict : Bool)
      (lookup : ActionRef → Except (List Char) (List GitHubAdvisory))
      (ref : ActionRef),
      ActionRef.from_action_string action = some ref →
      check_dependency_pinning action config strict = false →
      evaluateTrust ref config = .UntrustedAndMutable →
      (runScan [action] config strict lookup).2 = [action, action] := by
  intro action config strict lookup ref hp hpin htrust
  have hcond : is_trusted_owner ref.owner config = false ∧
      ref.is_commit_sha = false := by
    unfold evaluateTrust at htrust
    by_cases ht : is_trusted_owner ref.owner config <;>
      by_cases hs : ref.is_commit_sha <;> simp_all
  unfold runScan
  simp only [List.foldl]
  rw [scanAction_some config strict lookup ([], []) ref hp]
  simp [hpin, hcond.1, hcond.2]

/-- Witness for `c1_amended_duplicate_push`: critical `c/d@master` with no
trusted owners is pushed twice. -/
theorem c1_witness :
    (runScan [str "c/d@master"] ⟨some [str "c/d@master"], some []⟩ false
      (fun _ => Except.ok [])).2 = [str "c/d@master", str "c/d@master"] :=
  c1_amended_duplicate_push (str "c/d@master")
    ⟨some [str "c/d@master"], some []⟩ false (fun _ => Except.ok [])
    ⟨str "c", str "d", str "master", false⟩ (by decide) (by decide) (by decide)

/-- C10 (confirmed): a `docker://` reference never parses, passes the
pinning check unconditionally (even when listed as critical and in strict
mode), and never appears in either result vector of any scan. -/
theorem c10_docker_excluded :
    ∀ (s : List Char),
      (str "docker://").isPrefixOf s = true →
      ActionRef.from_action_string s = none ∧
      (∀ (config : Config) (strict : Bool),
        check_dependency_pinning s config strict = true) ∧
      (∀ (actions : List (List Char)) (config : Config) (strict : Bool)
        (lookup : ActionRef → Except (List Char) (List GitHubAdvisory)),
        s ∉ (runScan actions config strict lookup).1 ∧
        s ∉ (runScan actions config strict lookup).2) := by
  intro s hd
  refine ⟨?_, ?_, ?_⟩
  · rw [ActionRef.from_action_string, if_pos hd]
  · intro config strict
    unfold check_dependency_pinning evaluatePinning
    simp [hd]
  · intro actions config strict lookup
    have key : ∀ (st : List (List Char) × List (List Char)),
        s ∉ st.1 → s ∉ st.2 →
        s ∉ (actions.foldl (scanAction config strict lookup) st).1 ∧
        s ∉ (actions.foldl (scanAction config strict lookup) st).2 := by
      induction actions with
      | nil => intro st h1 h2; exact ⟨h1, h2⟩
      | cons a rest ih =>
        intro st h1 h2
        simp only [List.foldl_cons]
        by_cases ha : a = s
        · subst ha
          rw [scanAction_docker hd config strict lookup st]
          exact ih st h1 h2
        · apply ih
          · intro hm
            rcases mem_scanAction_fst hm with h | h
            · exact h1 h
            · exact ha h.symm
          · intro hm
            rcases mem_scanAction_snd hm with h | h
            · exact h2 h
            · exact ha h.symm
    exact key ([], []) (by simp) (by simp)

/-- Witness for `c10_docker_excluded` at `docker://alpine:3.18`, also
listed as critical and scanned in strict mode. -/
theorem c10_witness :
    ActionRef.from_action_string (str "docker://alpine:3.18") = none ∧
    check_dependency_pinning (str "docker://alpine:3.18")
      ⟨some [str "docker://alpine:3.18"], some []⟩ true = true ∧
    (str "docker://alpine:3.18") ∉
      (runScan [str "docker://alpine:3.18"] ⟨some [], some []⟩ true
        (fun _ => Except.ok [])).2 := by
  have h := c10_docker_excluded (str "docker://alpine:3.18") (by decide)
  exact ⟨h.1, h.2.1 ⟨some [str "docker://alpine:3.18"], some []⟩ true,
    (h.2.2 [str "docker://alpine:3.18"] ⟨some [], some []⟩ true
      (fun _ => Except.ok [])).2⟩
